import Mathlib

/-!
Shallow embedding of the quiz session core of `Patient_View/ContentView.swift`
(`QuizViewModel`, `RemoteCache`, and the per-question orchestration flow of
`ContentView`), together with proofs of the specified properties.

Randomness in the source (`randomElement()`, `shuffled()`) is made explicit:
each operation takes the outcome of every random draw as a parameter.  A
`shuffled()` call is modelled by a function `List String → List String`
constrained, where a proof needs it, to return a permutation of its input; a
`fallback.randomElement()` draw is modelled by a natural number index into the
fallback list (reduced mod 3, so every parameter denotes a real element, as
`randomElement` on a non-empty array never returns nil).

Swift array subscripting traps (fatal error) when out of range; the embedding
returns `Option` values, `none` standing for the trap.
-/

namespace Quiz

/-- Embeds `MemoryItem` (ContentView.swift).  Swift `UUID` ids are modelled as
naturals; only equality of ids is used by the source. -/
structure MemoryItem where
  id : Nat
  personName : String
  location : String
  event : String
  imageURL : String
  voiceID : Option String
deriving DecidableEq

/-- Embeds `QuestionType` (ContentView.swift). -/
inductive QuestionType where
  | person
  | location
  | event
deriving DecidableEq

/-- The field of a `MemoryItem` interrogated by a given question kind: the
switch bodies of `QuizViewModel.correctAnswer` and `buildOptions`. -/
def fieldValue : QuestionType → MemoryItem → String
  | QuestionType.person, it => it.personName
  | QuestionType.location, it => it.location
  | QuestionType.event, it => it.event

/-- The fixed fallback decoy list of `buildOptions` (line 181 of the source). -/
def fallbackList : List String := ["Unknown", "Not sure", "I don’t remember"]

/-- One iteration body of the `while decoys.count < 2` loop of `buildOptions`:
draw `fallback[pick % 3]` (the model of `fallback.randomElement()`); if it is
not already a decoy and differs from the correct answer, append it (`some`),
otherwise the loop breaks (`none`). -/
def fallbackStep (correct : String) (decoys : List String) (pick : Nat) : Option (List String) :=
  if fallbackList.getD (pick % 3) "Unknown" ∉ decoys ∧
      fallbackList.getD (pick % 3) "Unknown" ≠ correct
  then some (decoys ++ [fallbackList.getD (pick % 3) "Unknown"])
  else none

/-- The `while decoys.count < 2` loop of `buildOptions`.  Each iteration either
appends one decoy or breaks, and the loop exits once two decoys exist, so at
most two draws (`p1`, then `p2`) are ever consumed; the loop is unrolled
accordingly. -/
def fallbackFill (correct : String) (decoys : List String) (p1 p2 : Nat) : List String :=
  if decoys.length < 2 then
    match fallbackStep correct decoys p1 with
    | none => decoys
    | some d1 =>
      if d1.length < 2 then
        match fallbackStep correct d1 p2 with
        | none => d1
        | some d2 => d2
      else d1
  else decoys

/-- The `uniquePool` of `buildOptions`: the value of the interrogated field of
every other record, deduplicated (`Array(Set(pool))`), with empty values and
values equal to the correct answer filtered out.  The arbitrary ordering that
`Set` imposes is swallowed by the shuffle applied right after. -/
def quizUniquePool (type : QuestionType) (current : MemoryItem) (all : List MemoryItem) :
    List String :=
  (((all.filter (fun it => it.id != current.id)).map (fieldValue type)).dedup).filter
    (fun s => !s.isEmpty && s != fieldValue type current)

/-- The decoy list of `buildOptions`: the first two of the shuffled unique
pool, backfilled by the fallback loop. -/
def quizDecoys (type : QuestionType) (current : MemoryItem) (all : List MemoryItem)
    (shufflePool : List String → List String) (p1 p2 : Nat) : List String :=
  fallbackFill (fieldValue type current)
    ((shufflePool (quizUniquePool type current all)).take 2) p1 p2

/-- The tail of `buildOptions`: keep the first 3 options, or pad with copies
of "Unknown" up to exactly 3. -/
def padTo3 (opts : List String) : List String :=
  if 3 ≤ opts.length then opts.take 3
  else opts ++ List.replicate (3 - opts.length) "Unknown"

/-- Embeds `QuizViewModel.buildOptions`.  `shufflePool` models the arbitrary
ordering produced by `Array(Set(pool))` composed with `.shuffled()`;
`shuffleFinal` models the final `.shuffled()`; `p1 p2` model the
`fallback.randomElement()` draws. -/
def buildOptions (type : QuestionType) (current : MemoryItem) (all : List MemoryItem)
    (shufflePool shuffleFinal : List String → List String) (p1 p2 : Nat) : List String :=
  padTo3 (shuffleFinal
    (fieldValue type current :: quizDecoys type current all shufflePool p1 p2))

/-- Embeds the published state of `QuizViewModel`. -/
structure QuizState where
  items : List MemoryItem
  currentIndex : Nat
  score : Nat
  hasAnswered : Bool
  selectedOption : Option String
  isCorrect : Bool
  showResults : Bool
  questionType : QuestionType
  options : List String
deriving DecidableEq

/-- The state of a freshly constructed `QuizViewModel` (the property
initializers at lines 77-87 of the source). -/
def initialState : QuizState :=
  { items := []
    currentIndex := 0
    score := 0
    hasAnswered := false
    selectedOption := none
    isCorrect := false
    showResults := false
    questionType := QuestionType.person
    options := [] }

/-- Embeds `QuizViewModel.currentItem()`, i.e. `items[currentIndex]`; `none`
models the Swift out-of-range trap. -/
def QuizState.currentItem? (s : QuizState) : Option MemoryItem :=
  s.items[s.currentIndex]?

/-- Embeds the computed property `QuizViewModel.correctAnswer` (switch on
`questionType` over `currentItem()`); `none` models the trap. -/
def QuizState.correctAnswer? (s : QuizState) : Option String :=
  s.currentItem?.map (fieldValue s.questionType)

/-- Embeds `QuizViewModel.select(option:)`.  `none` models the trap that the
read of `correctAnswer` performs when `currentIndex` is out of range. -/
def select (s : QuizState) (o : String) : Option QuizState :=
  if s.hasAnswered then some s
  else
    match s.correctAnswer? with
    | none => none
    | some c =>
      some { s with
              selectedOption := some o
              isCorrect := o == c
              score := if o == c then s.score + 1 else s.score
              hasAnswered := true }

/-- Embeds `QuizViewModel.regenerateQuestionAndOptions()`.  `k` models
`QuestionType.allCases.randomElement() ?? .person` (a draw from a non-empty
array, hence an arbitrary `QuestionType`). -/
def regenerateQuestionAndOptions (s : QuizState) (k : QuestionType)
    (sp sf : List String → List String) (p1 p2 : Nat) : Option QuizState :=
  if s.items.isEmpty then some s
  else
    match s.currentItem? with
    | none => none
    | some cur =>
      some { s with
              questionType := k
              options := buildOptions k cur s.items sp sf p1 p2 }

/-- Embeds `QuizViewModel.next()`. -/
def next (s : QuizState) (k : QuestionType)
    (sp sf : List String → List String) (p1 p2 : Nat) : Option QuizState :=
  if s.items.isEmpty then some s
  else if s.currentIndex < s.items.length - 1 then
    regenerateQuestionAndOptions
      { s with
          currentIndex := s.currentIndex + 1
          hasAnswered := false
          selectedOption := none
          isCorrect := false } k sp sf p1 p2
  else some { s with showResults := true }

/-- Embeds `QuizViewModel.restart()`. -/
def restart (s : QuizState) (k : QuestionType)
    (sp sf : List String → List String) (p1 p2 : Nat) : Option QuizState :=
  regenerateQuestionAndOptions
    { s with
        score := 0
        currentIndex := 0
        hasAnswered := false
        selectedOption := none
        isCorrect := false
        showResults := false } k sp sf p1 p2

/-- Embeds `QuizViewModel.resetQuizState()`. -/
def resetQuizState (s : QuizState) : QuizState :=
  { s with
      currentIndex := 0
      score := 0
      hasAnswered := false
      selectedOption := none
      isCorrect := false
      showResults := false }

/-- Embeds the row type `MemoryPhoto` (MemoryPhoto.swift) as far as the quiz
core reads it. -/
structure MemoryPhoto where
  id : Nat
  person_name : String
  location : Option String
  event : Option String
  image_url : String
  voice_id : Option String
deriving DecidableEq

/-- Model of Swift `trimmingCharacters(in: .whitespacesAndNewlines)`: drop
whitespace from both ends of the string.  Defined over the character list so
that the kernel can evaluate it. -/
def trimWS (s : String) : String :=
  ⟨((s.data.dropWhile Char.isWhitespace).reverse.dropWhile Char.isWhitespace).reverse⟩

/-- The per-row mapping of `loadMemoriesFromSupabase`: trims each field, drops
the row when the trimmed URL is empty, normalizes empty name/location/event to
"Unknown", and empties the voice id to `none`. -/
def mapPhoto (p : MemoryPhoto) : Option MemoryItem :=
  if (trimWS p.image_url).isEmpty then none
  else
    some { id := p.id
           personName :=
             if (trimWS p.person_name).isEmpty then "Unknown" else trimWS p.person_name
           location :=
             if (trimWS (p.location.getD "")).isEmpty then "Unknown"
             else trimWS (p.location.getD "")
           event :=
             if (trimWS (p.event.getD "")).isEmpty then "Unknown"
             else trimWS (p.event.getD "")
           imageURL := trimWS p.image_url
           voiceID :=
             match p.voice_id.map trimWS with
             | none => none
             | some v => if v.isEmpty then none else some v }

/-- Embeds the state transformation of `QuizViewModel.loadMemoriesFromSupabase`
after a successful fetch of `photos`: map and filter the rows, silently return
with the state unchanged when nothing eligible remains, otherwise keep the
first 7 of a shuffle (`shuffleItems` models `.shuffled()`), reset the quiz
state and regenerate question and options for index 0. -/
def loadMemories (s : QuizState) (photos : List MemoryPhoto)
    (shuffleItems : List MemoryItem → List MemoryItem) (k : QuestionType)
    (sp sf : List String → List String) (p1 p2 : Nat) : Option QuizState :=
  let mapped := photos.filterMap mapPhoto
  if mapped.isEmpty then some s
  else
    regenerateQuestionAndOptions
      (resetQuizState { s with items := (shuffleItems mapped).take 7 }) k sp sf p1 p2

/-- Embeds the local filesystem visible to `RemoteCache`: an association of
file names with sizes, together with a counter of network downloads performed
(`fetchCount` counts `URLSession.shared.download` calls). -/
structure CacheWorld where
  fsSize : List (String × Nat)
  fetchCount : Nat
deriving DecidableEq

/-- File lookup in the modelled filesystem. -/
def lookupFS (fs : List (String × Nat)) (p : String) : Option Nat :=
  (fs.find? (fun e => e.1 == p)).map (fun e => e.2)

/-- Atomic replace of the file at `p` (`removeItem` then `moveItem`). -/
def setFS (fs : List (String × Nat)) (p : String) (sz : Nat) : List (String × Nat) :=
  (p, sz) :: fs.filter (fun e => e.1 != p)

/-- Embeds `RemoteCache.fileExistsAndNonEmpty`. -/
def fileExistsAndNonEmpty (w : CacheWorld) (path : String) : Bool :=
  match lookupFS w.fsSize path with
  | some sz => 0 < sz
  | none => false

/-- The final path segment of a URL string — everything after the last slash —
standing in for Foundation `URL.lastPathComponent`; only its determinism
matters to the cache. -/
def lastPathComponent (url : String) : String :=
  ⟨(url.data.reverse.takeWhile (fun c => c != '/')).reverse⟩

/-- Embeds `RemoteCache.cachedFileURL`: the cache file name is the final path
segment of the remote URL, or a generated unique name (`freshName`, modelling
`UUID().uuidString + ".heic"`) when that segment is empty. -/
def cachedFileName (remote : String) (freshName : String) : String :=
  let lc := lastPathComponent remote
  if lc.isEmpty then freshName else lc

/-- Embeds `RemoteCache.ensureDownloaded`.  `URL(string:)` parsing is modelled
as rejecting exactly the empty string; `dl` is the network download outcome
(`none` = the download threw, `some sz` = a temporary file of size `sz`).  The
result is `none` when the Swift function throws, otherwise the resolved file
name together with the updated world. -/
def ensureDownloaded (w : CacheWorld) (remote : String) (freshName : String)
    (dl : Option Nat) : Option (String × CacheWorld) :=
  if remote.isEmpty then none
  else if fileExistsAndNonEmpty w (cachedFileName remote freshName) then
    some (cachedFileName remote freshName, w)
  else
    match dl with
    | none => none
    | some sz =>
      some (cachedFileName remote freshName,
        { fsSize := setFS w.fsSize (cachedFileName remote freshName) sz
          fetchCount := w.fetchCount + 1 })

/-- Embeds the caching core of `QuizViewModel.localFileURLForCurrentImage`
(the method guards on `hasData` and passes `currentItem().imageURL` as
`remote`): consult the in-memory `localFileCache` map first; on a miss call
`RemoteCache.ensureDownloaded` and, on success, record the resolved handle in
the map.  Returns the optional handle, the updated map and the updated world. -/
def localFileURLFor (cache : List (String × String)) (w : CacheWorld)
    (remote : String) (freshName : String) (dl : Option Nat) :
    Option String × List (String × String) × CacheWorld :=
  match (cache.find? (fun e => e.1 == remote)).map (fun e => e.2) with
  | some u => (some u, cache, w)
  | none =>
    match ensureDownloaded w remote freshName dl with
    | some (u, w2) => (some u, (remote, u) :: cache, w2)
    | none => (none, cache, w)

/-- Observable events of the per-question orchestration flow
`ContentView.runPreviewThenSpeakThenRevealQuiz`. -/
inductive OrchEvent where
  | fetchFailed
  | previewShown
  | speechStarted
  | speechFinished
  | countdownElapsed
  | countdownCancelled
  | revealed
deriving DecidableEq

/-- Insertion of an element at a given position of a list (saturating at the
end), used to place the asynchronous speech-completion event at an arbitrary
point of the rest of the trace. -/
def insertAt (n : Nat) (a : OrchEvent) (l : List OrchEvent) : List OrchEvent :=
  match l with
  | [] => [a]
  | x :: xs =>
    match n with
    | 0 => a :: x :: xs
    | m + 1 => x :: insertAt m a xs

/-- Embeds `runPreviewThenSpeakThenRevealQuiz` as an event trace.  If the asset
fetch fails the flow sets `showQuizUI = true` at once (reveal without preview).
Otherwise it presents the preview, fires the detached speech task, and the
auto-close task sleeps for the preview duration; when the sleep ends the task
closes the preview — only if not cancelled — and reveals the quiz.  The speech
task finishes at an arbitrary later point `slot` of the trace, independent of
the countdown. -/
def orchestrate (fetchOk : Bool) (cancelled : Bool) (slot : Nat) : List OrchEvent :=
  if fetchOk = false then [OrchEvent.fetchFailed, OrchEvent.revealed]
  else
    let tail :=
      if cancelled then [OrchEvent.countdownCancelled, OrchEvent.revealed]
      else [OrchEvent.countdownElapsed, OrchEvent.revealed]
    OrchEvent.previewShown :: OrchEvent.speechStarted :: insertAt slot OrchEvent.speechFinished tail

/-- A single transition of the session state machine through the public
interface, carrying the outcomes of the random draws; the shuffle outcomes are
constrained to be permutations, as `shuffled()` guarantees. -/
inductive Step : QuizState → QuizState → Prop
  | select (s : QuizState) (o : String) (s' : QuizState)
      (hs : select s o = some s') : Step s s'
  | next (s : QuizState) (k : QuestionType) (sp sf : List String → List String)
      (p1 p2 : Nat) (s' : QuizState)
      (hsp : ∀ l, (sp l).Perm l) (hsf : ∀ l, (sf l).Perm l)
      (hs : next s k sp sf p1 p2 = some s') : Step s s'
  | restart (s : QuizState) (k : QuestionType) (sp sf : List String → List String)
      (p1 p2 : Nat) (s' : QuizState)
      (hsp : ∀ l, (sp l).Perm l) (hsf : ∀ l, (sf l).Perm l)
      (hs : restart s k sp sf p1 p2 = some s') : Step s s'

/-- Reachability through any sequence of select/next/restart transitions. -/
def ReachableFrom (s0 s : QuizState) : Prop :=
  Relation.ReflTransGen Step s0 s

/-! Concrete data used to exercise the theorems. -/

/-- A concrete memory item. -/
def itemA : MemoryItem := ⟨0, "Alice", "Paris", "Picnic", "https://ex/a.heic", none⟩

/-- A second concrete memory item. -/
def itemB : MemoryItem := ⟨1, "Bob", "Rome", "Party", "https://ex/b.heic", none⟩

/-- A concrete memory item whose person name is the sentinel "Unknown". -/
def itemU : MemoryItem := ⟨0, "Unknown", "Paris", "Picnic", "https://ex/u.heic", none⟩

/-- A concrete two-question session state positioned at the first question. -/
def sTwo : QuizState :=
  { items := [itemA, itemB]
    currentIndex := 0
    score := 0
    hasAnswered := false
    selectedOption := none
    isCorrect := false
    showResults := false
    questionType := QuestionType.person
    options := ["Alice", "Bob", "Unknown"] }

/-- A concrete eligible photo row. -/
def photoA : MemoryPhoto := ⟨0, "Alice", some "Paris", some "Picnic", "https://ex/a.heic", none⟩

/-- A concrete photo row whose asset URL is blank after trimming, hence
dropped at load. -/
def photoBad : MemoryPhoto := ⟨1, "Bob", none, none, "  ", none⟩

/-- A concrete photo row with a blank person name, normalized to "Unknown". -/
def photoNoName : MemoryPhoto := ⟨2, " ", some "Rome", some "Party", "https://ex/c.heic", some "v1"⟩

/-- The concrete state produced by loading the single eligible photo `photoA`
with identity shuffles and draws 0, 1. -/
def sLoaded : QuizState :=
  { items := [itemA]
    currentIndex := 0
    score := 0
    hasAnswered := false
    selectedOption := none
    isCorrect := false
    showResults := false
    questionType := QuestionType.person
    options := ["Alice", "Unknown", "Not sure"] }

/-- The session invariant maintained by every reachable state of a loaded
session: a non-empty record list, an in-range index, an option set containing
the correct answer for the current record and kind, and a recorded selection
whenever the question is answered. -/
def Inv (s : QuizState) : Prop :=
  s.items ≠ [] ∧ s.currentIndex < s.items.length ∧
  (∃ c, s.correctAnswer? = some c ∧ c ∈ s.options) ∧
  (s.hasAnswered = true → s.selectedOption.isSome = true)

/-! Helper lemmas about `select`. -/

/-- A call to `select` on an already-answered question returns the state
unchanged, in every state. -/
lemma select_eq_of_answered (s : QuizState) (o : String) (h : s.hasAnswered = true) :
    select s o = some s := by
  unfold select
  rw [h]
  simp

/-- A first `select` call, in any state where the correct answer is readable,
records the option, sets the answered flag, and bumps the score exactly when
the option equals the correct answer. -/
lemma select_eq_of_not_answered (s : QuizState) (o c : String)
    (h : s.hasAnswered = false) (hc : s.correctAnswer? = some c) :
    select s o =
      some { s with
              selectedOption := some o
              isCorrect := o == c
              score := if o == c then s.score + 1 else s.score
              hasAnswered := true } := by
  unfold select
  rw [h, hc]
  simp

/-- An in-range index makes `correctAnswer?` readable. -/
lemma correctAnswer_isSome (s : QuizState) (h : s.currentIndex < s.items.length) :
    ∃ c, s.correctAnswer? = some c := by
  unfold QuizState.correctAnswer? QuizState.currentItem?
  rw [List.getElem?_eq_getElem h]
  exact ⟨_, rfl⟩

/-- C1: for every session state (the data model requires `currentIndex` in
range) and every option string, `select` is a no-op once answered — a second
call with any option leaves the whole state unchanged — and a first call marks
the question answered, records the selected option, and increments the score
by exactly one iff the option equals the correct value for the current kind. -/
theorem select_noop_and_effect (s : QuizState) (o : String) :
    (s.hasAnswered = true → select s o = some s) ∧
    (s.hasAnswered = false → s.currentIndex < s.items.length →
      ∃ s' c, s.correctAnswer? = some c ∧ select s o = some s' ∧
        s'.hasAnswered = true ∧ s'.selectedOption = some o ∧
        s'.score = (if o = c then s.score + 1 else s.score) ∧
        s'.items = s.items ∧ s'.currentIndex = s.currentIndex ∧
        s'.questionType = s.questionType ∧ s'.options = s.options ∧
        (∀ o2, select s' o2 = some s')) := by
  constructor
  · intro h
    exact select_eq_of_answered s o h
  · intro h hidx
    obtain ⟨c, hc⟩ := correctAnswer_isSome s hidx
    refine ⟨_, c, hc, select_eq_of_not_answered s o c h hc, rfl, rfl, ?_, rfl, rfl, rfl, rfl, ?_⟩
    · by_cases hoc : o = c
      · simp [hoc]
      · simp [hoc]
    · intro o2
      exact select_eq_of_answered _ o2 rfl

/-- Witness for `select_noop_and_effect`: the first-call branch at a concrete
two-item state, with every hypothesis discharged. -/
theorem select_noop_and_effect_witness :
    ∃ s' c, sTwo.correctAnswer? = some c ∧ select sTwo "Alice" = some s' ∧
      s'.hasAnswered = true ∧ s'.selectedOption = some "Alice" ∧
      s'.score = (if "Alice" = c then sTwo.score + 1 else sTwo.score) ∧
      s'.items = sTwo.items ∧ s'.currentIndex = sTwo.currentIndex ∧
      s'.questionType = sTwo.questionType ∧ s'.options = sTwo.options ∧
      (∀ o2, select s' o2 = some s') :=
  (select_noop_and_effect sTwo "Alice").2 rfl (by decide)

/-- C10: `select` does not validate its argument against the displayed option
set: the theorem places no membership hypothesis on `o`, so any string —
displayed or not — is recorded as the selected answer on a first call, the
question becomes answered, and the score grows by one exactly when the string
is character-for-character equal to the correct answer for the current record
and kind. -/
theorem select_no_validation (s : QuizState) (o c : String)
    (h : s.hasAnswered = false) (hc : s.correctAnswer? = some c) :
    ∃ s', select s o = some s' ∧ s'.hasAnswered = true ∧
      s'.selectedOption = some o ∧
      (s'.score = s.score + 1 ↔ o = c) ∧
      (o ≠ c → s'.score = s.score) := by
  refine ⟨_, select_eq_of_not_answered s o c h hc, rfl, rfl, ?_, ?_⟩
  · by_cases hoc : o = c
    · simp [hoc]
    · simp [hoc]
  · intro hoc
    simp [hoc]

/-- Witness for `select_no_validation`: the selected string "zzz" is not among
the three displayed options of the concrete state, yet it is recorded and, not
being the correct answer, leaves the score unchanged. -/
theorem select_no_validation_witness :
    "zzz" ∉ sTwo.options ∧
    ∃ s', select sTwo "zzz" = some s' ∧ s'.hasAnswered = true ∧
      s'.selectedOption = some "zzz" ∧
      (s'.score = sTwo.score + 1 ↔ "zzz" = "Alice") ∧
      ("zzz" ≠ "Alice" → s'.score = sTwo.score) :=
  ⟨by decide, select_no_validation sTwo "zzz" "Alice" rfl (by decide)⟩

/-! Helper lemmas about `next`, `restart` and emptiness. -/

/-- A non-nil list is not `isEmpty`. -/
lemma isEmpty_false_of_ne_nil {α : Type} {l : List α} (h : l ≠ []) : l.isEmpty = false := by
  cases l with
  | nil => exact absurd rfl h
  | cons a t => rfl

/-- C2: `next` is a no-op on an empty record list; at the last index it only
sets the terminal flag, leaving index and score unchanged, and is idempotent
from then on; otherwise it advances the index by one, clears the answered flag
and the selection, and regenerates the question kind and the option set for
the new index. -/
theorem next_spec (s : QuizState) (k : QuestionType)
    (sp sf : List String → List String) (p1 p2 : Nat) :
    (s.items = [] → next s k sp sf p1 p2 = some s) ∧
    (s.items ≠ [] → s.currentIndex = s.items.length - 1 →
      next s k sp sf p1 p2 = some { s with showResults := true } ∧
      (∀ k2 sp2 sf2 q1 q2,
        next { s with showResults := true } k2 sp2 sf2 q1 q2 =
          some { s with showResults := true })) ∧
    (s.items ≠ [] → s.currentIndex < s.items.length - 1 →
      ∃ s' cur, s.items[s.currentIndex + 1]? = some cur ∧
        next s k sp sf p1 p2 = some s' ∧
        s'.currentIndex = s.currentIndex + 1 ∧ s'.hasAnswered = false ∧
        s'.selectedOption = none ∧ s'.isCorrect = false ∧
        s'.questionType = k ∧
        s'.options = buildOptions k cur s.items sp sf p1 p2 ∧
        s'.items = s.items ∧ s'.score = s.score ∧
        s'.showResults = s.showResults) := by
  refine ⟨?_, ?_, ?_⟩
  · intro h
    unfold next
    simp [h]
  · intro hne hlast
    have hie := isEmpty_false_of_ne_nil hne
    have hlt : ¬ s.currentIndex < s.items.length - 1 := by omega
    constructor
    · unfold next
      simp [hie, hlt]
    · intro k2 sp2 sf2 q1 q2
      unfold next
      simp [hie, hlt]
  · intro hne hlt
    have hie := isEmpty_false_of_ne_nil hne
    have hlen : 0 < s.items.length := List.length_pos.mpr hne
    have hidx : s.currentIndex + 1 < s.items.length := by omega
    refine ⟨{ s with
                currentIndex := s.currentIndex + 1
                hasAnswered := false
                selectedOption := none
                isCorrect := false
                questionType := k
                options := buildOptions k (s.items[s.currentIndex + 1]) s.items sp sf p1 p2 },
      s.items[s.currentIndex + 1], List.getElem?_eq_getElem hidx, ?_,
      rfl, rfl, rfl, rfl, rfl, rfl, rfl, rfl, rfl⟩
    unfold next regenerateQuestionAndOptions QuizState.currentItem?
    simp only [hie, Bool.false_eq_true, if_false, hlt, if_pos]
    rw [List.getElem?_eq_getElem hidx]

/-- Witness for `next_spec`: the advancing branch and the terminal branch at a
concrete two-item state, with every hypothesis discharged. -/
theorem next_spec_witness :
    (∃ s' cur, sTwo.items[sTwo.currentIndex + 1]? = some cur ∧
      next sTwo QuestionType.person id id 0 1 = some s' ∧
      s'.currentIndex = sTwo.currentIndex + 1 ∧ s'.hasAnswered = false ∧
      s'.selectedOption = none ∧ s'.isCorrect = false ∧
      s'.questionType = QuestionType.person ∧
      s'.options = buildOptions QuestionType.person cur sTwo.items id id 0 1 ∧
      s'.items = sTwo.items ∧ s'.score = sTwo.score ∧
      s'.showResults = sTwo.showResults) ∧
    (next initialState QuestionType.person id id 0 1 = some initialState) :=
  ⟨(next_spec sTwo QuestionType.person id id 0 1).2.2 (by decide) (by decide),
   (next_spec initialState QuestionType.person id id 0 1).1 rfl⟩

/-- `regenerateQuestionAndOptions` never traps when the index is in range. -/
lemma regenerate_isSome (s : QuizState) (k : QuestionType)
    (sp sf : List String → List String) (p1 p2 : Nat)
    (h : s.currentIndex < s.items.length) :
    (regenerateQuestionAndOptions s k sp sf p1 p2).isSome = true := by
  unfold regenerateQuestionAndOptions QuizState.currentItem?
  rw [List.getElem?_eq_getElem h]
  split <;> rfl

/-- Counterexample to C9 as stated: in the freshly constructed state — the
record list still empty, no load performed — a first call to `select` reads
`correctAnswer`, which subscripts the empty array and traps (the `none` of the
embedding); the operation does not complete. -/
theorem select_traps_when_empty : select initialState "x" = none := by decide

/-- C9 amended: the operations that guard on `hasData` — `next` and `restart`
— complete without trapping in every state whatsoever; `select` completes
whenever the question is already answered or the current index is within the
record list, and reading the current item or the correct answer completes
whenever the index is within the list (hence all of them complete in every
state reachable from a successful load); but an unanswered `select`, or a read
of the current item or correct answer, traps when the record list is empty or
the index is out of range, as `select_traps_when_empty` exhibits. -/
theorem operations_complete_amended :
    (∀ s k sp sf p1 p2, (next s k sp sf p1 p2).isSome = true) ∧
    (∀ s k sp sf p1 p2, (restart s k sp sf p1 p2).isSome = true) ∧
    (∀ s o, s.hasAnswered = true ∨ s.currentIndex < s.items.length →
      (select s o).isSome = true) ∧
    (∀ s : QuizState, s.currentIndex < s.items.length →
      s.currentItem?.isSome = true ∧ s.correctAnswer?.isSome = true) := by
  refine ⟨?_, ?_, ?_, ?_⟩
  · intro s k sp sf p1 p2
    unfold next
    cases hi : s.items.isEmpty with
    | true => rfl
    | false =>
      have hne : s.items ≠ [] := by
        intro h
        rw [h] at hi
        exact Bool.noConfusion hi
      have hlen : 0 < s.items.length := List.length_pos.mpr hne
      simp only [Bool.false_eq_true, if_false]
      split
      case isTrue h =>
        have := regenerate_isSome
          { s with
              currentIndex := s.currentIndex + 1
              hasAnswered := false
              selectedOption := none
              isCorrect := false } k sp sf p1 p2 (by simp; omega)
        exact this
      case isFalse h => rfl
  · intro s k sp sf p1 p2
    unfold restart regenerateQuestionAndOptions QuizState.currentItem?
    cases hi : s.items.isEmpty with
    | true => simp [hi]
    | false =>
      have hne : s.items ≠ [] := by
        intro h
        rw [h] at hi
        exact Bool.noConfusion hi
      have hlen : 0 < s.items.length := List.length_pos.mpr hne
      simp only [hi, Bool.false_eq_true, if_false]
      rw [List.getElem?_eq_getElem (by simpa using hlen)]
      rfl
  · intro s o h
    rcases h with h | h
    · rw [select_eq_of_answered s o h]
      rfl
    · cases ha : s.hasAnswered with
      | true =>
        rw [select_eq_of_answered s o ha]
        rfl
      | false =>
        obtain ⟨c, hc⟩ := correctAnswer_isSome s h
        rw [select_eq_of_not_answered s o c ha hc]
        rfl
  · intro s h
    unfold QuizState.correctAnswer? QuizState.currentItem?
    rw [List.getElem?_eq_getElem h]
    exact ⟨rfl, rfl⟩

/-- Witness for `operations_complete_amended`: each guarded-totality clause
applied at a concrete state, hypotheses discharged. -/
theorem operations_complete_amended_witness :
    (next sTwo QuestionType.person id id 0 1).isSome = true ∧
    (restart initialState QuestionType.person id id 0 1).isSome = true ∧
    (select sTwo "zz").isSome = true ∧
    sTwo.currentItem?.isSome = true :=
  ⟨operations_complete_amended.1 sTwo QuestionType.person id id 0 1,
   operations_complete_amended.2.1 initialState QuestionType.person id id 0 1,
   operations_complete_amended.2.2.1 sTwo "zz" (Or.inr (by decide)),
   (operations_complete_amended.2.2.2 sTwo (by decide)).1⟩

/-! Helper lemmas about the option generator. -/

/-- Every fallback draw is an element of the fallback list. -/
lemma getD_fallback_mem (p : Nat) : fallbackList.getD (p % 3) "Unknown" ∈ fallbackList := by
  have hp : p % 3 = 0 ∨ p % 3 = 1 ∨ p % 3 = 2 := by omega
  rcases hp with h | h | h <;> rw [h] <;> decide

/-- Characterization of a successful fallback iteration: it appends a single
fallback element, new to the decoys and different from the correct answer. -/
lemma fallbackStep_eq_some {c : String} {d : List String} {p : Nat} {d' : List String}
    (h : fallbackStep c d p = some d') :
    ∃ e, e ∈ fallbackList ∧ e ∉ d ∧ e ≠ c ∧ d' = d ++ [e] := by
  unfold fallbackStep at h
  split at h
  case isTrue hcond =>
    injection h with h
    exact ⟨_, getD_fallback_mem p, hcond.1, hcond.2, h.symm⟩
  case isFalse hcond => exact Option.noConfusion h

/-- The fallback loop keeps the decoy list short, duplicate-free, and free of
the correct answer. -/
lemma fallbackFill_spec (c : String) (d : List String) (p1 p2 : Nat)
    (hlen : d.length ≤ 2) (hnd : d.Nodup) (hnc : ∀ x ∈ d, x ≠ c) :
    (fallbackFill c d p1 p2).length ≤ 2 ∧ (fallbackFill c d p1 p2).Nodup ∧
    (∀ x ∈ fallbackFill c d p1 p2, x ≠ c) := by
  unfold fallbackFill
  split
  case isTrue h1 =>
    split
    case h_1 => exact ⟨hlen, hnd, hnc⟩
    case h_2 d1 heq =>
      obtain ⟨e, he, hed, hec, rfl⟩ := fallbackStep_eq_some heq
      have hnd1 : (d ++ [e]).Nodup := by
        simp [List.nodup_append, hnd, hed]
      have hnc1 : ∀ x ∈ d ++ [e], x ≠ c := by
        intro x hx
        rcases List.mem_append.mp hx with hx | hx
        · exact hnc x hx
        · rw [List.mem_singleton.mp hx]
          exact hec
      split
      case isTrue h2 =>
        split
        case h_1 =>
          refine ⟨?_, hnd1, hnc1⟩
          simp only [List.length_append, List.length_singleton]
          omega
        case h_2 d2 heq2 =>
          obtain ⟨e2, he2, hed2, hec2, rfl⟩ := fallbackStep_eq_some heq2
          simp only [List.length_append, List.length_singleton] at h2 ⊢
          refine ⟨by omega, ?_, ?_⟩
          · simp only [List.nodup_append, List.nodup_cons, List.nodup_nil] at hnd1 ⊢
            refine ⟨hnd1, by simp, ?_⟩
            intro x hx
            simp only [List.mem_singleton]
            intro hxe
            exact hed2 (hxe ▸ hx)
          · intro x hx
            rcases List.mem_append.mp hx with hx | hx
            · exact hnc1 x hx
            · rw [List.mem_singleton.mp hx]
              exact hec2
      case isFalse h2 =>
        refine ⟨?_, hnd1, hnc1⟩
        simp only [List.length_append, List.length_singleton] at h2 ⊢
        omega
  case isFalse h1 => exact ⟨hlen, hnd, hnc⟩

/-- Padding yields exactly 3 options, preserves membership, preserves the
count of everything but "Unknown", and introduces duplicates of nothing but
"Unknown". -/
lemma padTo3_spec (l : List String) (hle : l.length ≤ 3) :
    (padTo3 l).length = 3 ∧ (∀ x ∈ l, x ∈ padTo3 l) ∧
    (∀ x, x ≠ "Unknown" → (padTo3 l).count x = l.count x) ∧
    (∀ x, 1 < (padTo3 l).count x → 1 < l.count x ∨ x = "Unknown") := by
  unfold padTo3
  split
  case isTrue h =>
    rw [List.take_of_length_le hle]
    refine ⟨by omega, fun x hx => hx, fun x _ => rfl, fun x hx => Or.inl hx⟩
  case isFalse h =>
    have hrep : ∀ x : String, x ≠ "Unknown" → (List.replicate (3 - l.length) "Unknown").count x = 0 := by
      intro x hx
      rw [List.count_eq_zero]
      intro hmem
      exact hx (List.eq_of_mem_replicate hmem)
    refine ⟨?_, ?_, ?_, ?_⟩
    · simp only [List.length_append, List.length_replicate]
      omega
    · intro x hx
      exact List.mem_append_left _ hx
    · intro x hx
      rw [List.count_append, hrep x hx]
      omega
    · intro x hx
      by_cases hxu : x = "Unknown"
      · exact Or.inr hxu
      · rw [List.count_append, hrep x hxu] at hx
        exact Or.inl (by omega)

/-- Core contract of the option generator, for arbitrary record pools: the
result has exactly 3 entries, contains the correct value, contains it exactly
once whenever the correct value is not "Unknown", and any duplicated entry is
"Unknown". -/
lemma buildOptions_spec (type : QuestionType) (cur : MemoryItem) (all : List MemoryItem)
    (sp sf : List String → List String) (p1 p2 : Nat)
    (hsp : ∀ l, (sp l).Perm l) (hsf : ∀ l, (sf l).Perm l) :
    (buildOptions type cur all sp sf p1 p2).length = 3 ∧
    fieldValue type cur ∈ buildOptions type cur all sp sf p1 p2 ∧
    (fieldValue type cur ≠ "Unknown" →
      (buildOptions type cur all sp sf p1 p2).count (fieldValue type cur) = 1) ∧
    (∀ x, 1 < (buildOptions type cur all sp sf p1 p2).count x → x = "Unknown") := by
  have hup : (quizUniquePool type cur all).Nodup :=
    List.Nodup.filter _ (List.nodup_dedup _)
  have htake : ((sp (quizUniquePool type cur all)).take 2).Nodup :=
    List.Nodup.sublist (List.take_sublist 2 _) ((hsp _).nodup_iff.mpr hup)
  have htlen : ((sp (quizUniquePool type cur all)).take 2).length ≤ 2 := by
    simp [List.length_take]
  have htne : ∀ x ∈ (sp (quizUniquePool type cur all)).take 2, x ≠ fieldValue type cur := by
    intro x hx
    have hx2 : x ∈ quizUniquePool type cur all :=
      (hsp _).mem_iff.mp (List.mem_of_mem_take hx)
    have hx3 := (List.mem_filter.mp hx2).2
    simp only [Bool.and_eq_true, bne_iff_ne, ne_eq] at hx3
    exact hx3.2
  obtain ⟨hflen, hfnd, hfnc⟩ :=
    fallbackFill_spec (fieldValue type cur) _ p1 p2 htlen htake htne
  have hper := hsf (fieldValue type cur :: quizDecoys type cur all sp p1 p2)
  have hDlen : (quizDecoys type cur all sp p1 p2).length ≤ 2 := hflen
  have hlen3 : (sf (fieldValue type cur :: quizDecoys type cur all sp p1 p2)).length ≤ 3 := by
    rw [hper.length_eq, List.length_cons]
    omega
  have hnd3 : (sf (fieldValue type cur :: quizDecoys type cur all sp p1 p2)).Nodup := by
    refine hper.nodup_iff.mpr (List.nodup_cons.mpr ⟨?_, hfnd⟩)
    intro hmem
    exact hfnc _ hmem rfl
  have hmem3 : fieldValue type cur ∈ sf (fieldValue type cur :: quizDecoys type cur all sp p1 p2) :=
    hper.mem_iff.mpr (List.mem_cons_self _ _)
  have hcnt3 : (sf (fieldValue type cur :: quizDecoys type cur all sp p1 p2)).count
      (fieldValue type cur) = 1 :=
    List.count_eq_one_of_mem hnd3 hmem3
  obtain ⟨hp1, hp2, hp3, hp4⟩ := padTo3_spec _ hlen3
  unfold buildOptions
  refine ⟨hp1, hp2 _ hmem3, ?_, ?_⟩
  · intro hcu
    rw [hp3 _ hcu, hcnt3]
  · intro x hx
    rcases hp4 x hx with h | h
    · exfalso
      have := List.nodup_iff_count_le_one.mp hnd3 x
      omega
    · exact h

/-- Counterexample to C3 as stated: with a single-record pool whose correct
value is the sentinel "Unknown" (reachable, since load normalizes empty fields
to "Unknown") and a first fallback draw that collides with it, the loop breaks
with no decoys, padding fills with "Unknown", and the returned options contain
the correct value three times, not exactly once. -/
theorem buildOptions_correct_thrice_counterexample :
    buildOptions QuestionType.person itemU [itemU] id id 0 0 =
      ["Unknown", "Unknown", "Unknown"] ∧
    fieldValue QuestionType.person itemU = "Unknown" ∧
    ¬ (buildOptions QuestionType.person itemU [itemU] id id 0 0).count
        (fieldValue QuestionType.person itemU) = 1 := by decide

/-- C3 amended: for every non-empty record pool, current record and question
kind, the generator returns exactly 3 strings that contain the correct value,
contain it exactly once whenever the correct value differs from "Unknown", and
contain no duplicate entry other than "Unknown" (a repeat of "Unknown" arises
whenever the fallback loop stops early — on a colliding random draw as well as
on exhaustion — and such a repeat duplicates the correct value itself when
that value is "Unknown"). -/
theorem buildOptions_amended (type : QuestionType) (cur : MemoryItem)
    (all : List MemoryItem) (sp sf : List String → List String) (p1 p2 : Nat)
    (_hall : all ≠ []) (_hcur : cur ∈ all)
    (hsp : ∀ l, (sp l).Perm l) (hsf : ∀ l, (sf l).Perm l) :
    (buildOptions type cur all sp sf p1 p2).length = 3 ∧
    fieldValue type cur ∈ buildOptions type cur all sp sf p1 p2 ∧
    (fieldValue type cur ≠ "Unknown" →
      (buildOptions type cur all sp sf p1 p2).count (fieldValue type cur) = 1) ∧
    (∀ x, 1 < (buildOptions type cur all sp sf p1 p2).count x → x = "Unknown") :=
  buildOptions_spec type cur all sp sf p1 p2 hsp hsf

/-- Witness for `buildOptions_amended`: the two-record pool at a concrete
state, hypotheses discharged with identity shuffles. -/
theorem buildOptions_amended_witness :
    (buildOptions QuestionType.person itemA [itemA, itemB] id id 0 1).length = 3 ∧
    fieldValue QuestionType.person itemA ∈
      buildOptions QuestionType.person itemA [itemA, itemB] id id 0 1 ∧
    (fieldValue QuestionType.person itemA ≠ "Unknown" →
      (buildOptions QuestionType.person itemA [itemA, itemB] id id 0 1).count
        (fieldValue QuestionType.person itemA) = 1) ∧
    (∀ x, 1 < (buildOptions QuestionType.person itemA [itemA, itemB] id id 0 1).count x →
      x = "Unknown") :=
  buildOptions_amended QuestionType.person itemA [itemA, itemB] id id 0 1
    (by decide) (by decide) (fun l => List.Perm.refl l) (fun l => List.Perm.refl l)

/-- Counterexample to C4 as stated: single-record pool, correct value "Alice"
(none of the fallbacks), and both random draws landing on "Unknown".  The
first draw is appended; the second collides and the loop breaks — it does not
skip to the next fallback — so the result is Alice padded with two copies of
"Unknown" rather than the claimed set containing "Not sure" and
"I don’t remember". -/
theorem buildOptions_fallback_counterexample :
    buildOptions QuestionType.person itemA [itemA] id id 0 0 =
      ["Alice", "Unknown", "Unknown"] ∧
    "Not sure" ∉ buildOptions QuestionType.person itemA [itemA] id id 0 0 ∧
    "I don’t remember" ∉ buildOptions QuestionType.person itemA [itemA] id id 0 0 := by
  decide

/-- The fallback loop on an empty decoy list, when the two draws are "Not
sure" then "I don’t remember" and the correct value is no fallback, accepts
both draws. -/
lemma fallbackFill_nil_picks_12 (c : String) (hc : c ∉ fallbackList) :
    fallbackFill c [] 1 2 = ["Not sure", "I don’t remember"] := by
  have h1 : ("Not sure" : String) ≠ c := by
    intro h
    exact hc (h ▸ (by decide : ("Not sure" : String) ∈ fallbackList))
  have h2 : ("I don’t remember" : String) ≠ c := by
    intro h
    exact hc (h ▸ (by decide : ("I don’t remember" : String) ∈ fallbackList))
  unfold fallbackFill fallbackStep
  simp [fallbackList, h1, h2]

/-- C4 amended: when the decoy pool is empty — in particular for a
single-record pool — the generator repeatedly draws a random fallback,
appending each draw that differs from the correct value and from the decoys
chosen so far, and stops at the first rejected draw (rather than skipping it)
or once 2 decoys exist; the caller then pads with "Unknown" to exactly 3.  For
a single-record pool whose correct value is none of the fallbacks, the result
set claimed by the spec, correct plus "Not sure" plus "I don’t remember", is
obtained exactly when the draws accept those two fallbacks, as with draw
indices 1 and 2 here; other draws give other fallback pairs or an early stop
padded with "Unknown". -/
theorem buildOptions_single_pool_amended (type : QuestionType) (cur : MemoryItem)
    (sp sf : List String → List String)
    (hsp : ∀ l, (sp l).Perm l) (hsf : ∀ l, (sf l).Perm l)
    (hc : fieldValue type cur ∉ fallbackList) :
    (buildOptions type cur [cur] sp sf 1 2).Perm
      [fieldValue type cur, "Not sure", "I don’t remember"] := by
  have hup : quizUniquePool type cur [cur] = [] := by
    simp [quizUniquePool]
  have hsp0 : sp [] = [] := (hsp []).eq_nil
  have hD : quizDecoys type cur [cur] sp 1 2 = ["Not sure", "I don’t remember"] := by
    unfold quizDecoys
    rw [hup, hsp0]
    simpa using fallbackFill_nil_picks_12 (fieldValue type cur) hc
  unfold buildOptions
  rw [hD]
  have hper := hsf [fieldValue type cur, "Not sure", "I don’t remember"]
  have hlen : (sf [fieldValue type cur, "Not sure", "I don’t remember"]).length = 3 := by
    rw [hper.length_eq]
    rfl
  unfold padTo3
  rw [hlen]
  simp only [le_refl, if_pos]
  rw [List.take_of_length_le (by omega)]
  exact hper

/-- Witness for `buildOptions_single_pool_amended`: concrete single-record
pool with identity shuffles yields exactly the spec scenario set. -/
theorem buildOptions_single_pool_amended_witness :
    (buildOptions QuestionType.person itemA [itemA] id id 1 2).Perm
      [fieldValue QuestionType.person itemA, "Not sure", "I don’t remember"] :=
  buildOptions_single_pool_amended QuestionType.person itemA id id
    (fun l => List.Perm.refl l) (fun l => List.Perm.refl l) (by decide)

/-- C5: load drops every row whose asset URL is blank after trimming and only
those; it normalizes blank personName/location/event to the sentinel
"Unknown"; when no eligible row remains it fails in the EmptyDataset sense of
the spec — the early return leaves the session state unchanged, no session is
started, and the caller surfaces the empty dataset as the error state; when
eligible rows remain it selects up to 7 of them at random without replacement
(the first 7 of a shuffle: a sub-permutation of the eligible rows), resets
index, score and every answer flag to the initial values, and generates the
question kind and the options for index 0. -/
theorem load_spec (s : QuizState) (photos : List MemoryPhoto)
    (sh : List MemoryItem → List MemoryItem) (k : QuestionType)
    (sp sf : List String → List String) (p1 p2 : Nat)
    (hsh : ∀ l, (sh l).Perm l) :
    (∀ p, mapPhoto p = none ↔ (trimWS p.image_url).isEmpty = true) ∧
    (∀ p it, mapPhoto p = some it →
      ((trimWS p.person_name).isEmpty = true → it.personName = "Unknown") ∧
      ((trimWS (p.location.getD "")).isEmpty = true → it.location = "Unknown") ∧
      ((trimWS (p.event.getD "")).isEmpty = true → it.event = "Unknown")) ∧
    (photos.filterMap mapPhoto = [] →
      loadMemories s photos sh k sp sf p1 p2 = some s) ∧
    (photos.filterMap mapPhoto ≠ [] →
      ∃ s' cur, loadMemories s photos sh k sp sf p1 p2 = some s' ∧
        s'.items = (sh (photos.filterMap mapPhoto)).take 7 ∧
        s'.items.length = min 7 (photos.filterMap mapPhoto).length ∧
        (s'.items ++ (sh (photos.filterMap mapPhoto)).drop 7).Perm
          (photos.filterMap mapPhoto) ∧
        s'.currentIndex = 0 ∧ s'.score = 0 ∧ s'.hasAnswered = false ∧
        s'.selectedOption = none ∧ s'.isCorrect = false ∧ s'.showResults = false ∧
        s'.questionType = k ∧ s'.items[0]? = some cur ∧
        s'.options = buildOptions k cur s'.items sp sf p1 p2) := by
  refine ⟨?_, ?_, ?_, ?_⟩
  · intro p
    unfold mapPhoto
    constructor
    · intro h
      by_contra hc
      rw [if_neg (by simpa using hc)] at h
      exact Option.noConfusion h
    · intro h
      rw [if_pos h]
  · intro p it h
    unfold mapPhoto at h
    split at h
    case isTrue => exact Option.noConfusion h
    case isFalse =>
      injection h with h
      subst h
      refine ⟨?_, ?_, ?_⟩ <;> intro he <;> simp [he]
  · intro h
    unfold loadMemories
    simp [h]
  · intro h
    have hlen : 0 < (photos.filterMap mapPhoto).length := List.length_pos.mpr h
    have hshlen : (sh (photos.filterMap mapPhoto)).length = (photos.filterMap mapPhoto).length :=
      (hsh _).length_eq
    have hclen : ((sh (photos.filterMap mapPhoto)).take 7).length =
        min 7 (photos.filterMap mapPhoto).length := by
      rw [List.length_take, hshlen]
    have hcpos : 0 < ((sh (photos.filterMap mapPhoto)).take 7).length := by
      rw [hclen]
      omega
    have hcne : (sh (photos.filterMap mapPhoto)).take 7 ≠ [] := by
      intro hnil
      rw [hnil] at hcpos
      exact Nat.lt_irrefl 0 hcpos
    unfold loadMemories
    rw [if_neg (by simpa using h)]
    unfold regenerateQuestionAndOptions resetQuizState QuizState.currentItem?
    simp only [isEmpty_false_of_ne_nil hcne, Bool.false_eq_true, if_false]
    rw [List.getElem?_eq_getElem hcpos]
    refine ⟨_, ((sh (photos.filterMap mapPhoto)).take 7)[0], rfl, rfl, hclen, ?_,
      rfl, rfl, rfl, rfl, rfl, rfl, rfl, List.getElem?_eq_getElem hcpos, rfl⟩
    rw [List.take_append_drop]
    exact hsh _

/-- Witness for `load_spec`: a concrete photo list in which the blank-URL row
is dropped and two eligible rows remain; both the dropped-row clause, the
normalization clause and the successful-load clause are exercised, and the
failure clause at a list with no eligible row. -/
theorem load_spec_witness :
    (mapPhoto photoBad = none) ∧
    (mapPhoto photoNoName = some ⟨2, "Unknown", "Rome", "Party", "https://ex/c.heic", some "v1"⟩) ∧
    (loadMemories sTwo [photoBad] id QuestionType.person id id 0 1 = some sTwo) ∧
    (∃ s' cur,
      loadMemories initialState [photoA, photoBad, photoNoName] id
        QuestionType.person id id 0 1 = some s' ∧
      s'.items = (id ([photoA, photoBad, photoNoName].filterMap mapPhoto)).take 7 ∧
      s'.items.length = min 7 ([photoA, photoBad, photoNoName].filterMap mapPhoto).length ∧
      (s'.items ++ (id ([photoA, photoBad, photoNoName].filterMap mapPhoto)).drop 7).Perm
        ([photoA, photoBad, photoNoName].filterMap mapPhoto) ∧
      s'.currentIndex = 0 ∧ s'.score = 0 ∧ s'.hasAnswered = false ∧
      s'.selectedOption = none ∧ s'.isCorrect = false ∧ s'.showResults = false ∧
      s'.questionType = QuestionType.person ∧ s'.items[0]? = some cur ∧
      s'.options = buildOptions QuestionType.person cur s'.items id id 0 1) := by
  have h := load_spec initialState [photoA, photoBad, photoNoName] id QuestionType.person
    id id 0 1 (fun l => List.Perm.refl l)
  have hb := load_spec sTwo [photoBad] id QuestionType.person id id 0 1
    (fun l => List.Perm.refl l)
  exact ⟨(h.1 photoBad).mpr (by decide), by decide,
    hb.2.2.1 (by decide), h.2.2.2 (by decide)⟩

/-! Helper lemmas for the reachability invariant. -/

/-- `next` in the advancing case, as an explicit record. -/
lemma next_eq_advance (s : QuizState) (k : QuestionType)
    (sp sf : List String → List String) (p1 p2 : Nat)
    (hne : s.items ≠ []) (hlt : s.currentIndex < s.items.length - 1) :
    next s k sp sf p1 p2 = some { s with
      currentIndex := s.currentIndex + 1
      hasAnswered := false
      selectedOption := none
      isCorrect := false
      questionType := k
      options := buildOptions k (s.items[s.currentIndex + 1]) s.items sp sf p1 p2 } := by
  have hidx2 : s.currentIndex + 1 < s.items.length := by omega
  unfold next regenerateQuestionAndOptions QuizState.currentItem?
  simp only [isEmpty_false_of_ne_nil hne, Bool.false_eq_true, if_false, hlt, if_pos]
  rw [List.getElem?_eq_getElem hidx2]

/-- `next` in the terminal case, as an explicit record. -/
lemma next_eq_finish (s : QuizState) (k : QuestionType)
    (sp sf : List String → List String) (p1 p2 : Nat)
    (hne : s.items ≠ []) (hlt : ¬ s.currentIndex < s.items.length - 1) :
    next s k sp sf p1 p2 = some { s with showResults := true } := by
  unfold next
  simp only [isEmpty_false_of_ne_nil hne, Bool.false_eq_true, if_false, hlt]

/-- `restart` on a non-empty record list, as an explicit record. -/
lemma restart_eq (s : QuizState) (k : QuestionType)
    (sp sf : List String → List String) (p1 p2 : Nat) (hne : s.items ≠ []) :
    restart s k sp sf p1 p2 = some { s with
      score := 0
      currentIndex := 0
      hasAnswered := false
      selectedOption := none
      isCorrect := false
      showResults := false
      questionType := k
      options := buildOptions k (s.items.get ⟨0, List.length_pos.mpr hne⟩) s.items sp sf p1 p2 } := by
  have hlen : 0 < s.items.length := List.length_pos.mpr hne
  unfold restart regenerateQuestionAndOptions QuizState.currentItem?
  simp only [isEmpty_false_of_ne_nil hne, Bool.false_eq_true, if_false]
  rw [List.getElem?_eq_getElem hlen]
  rfl

/-- `select` preserves the session invariant. -/
lemma inv_select {s s' : QuizState} {o : String}
    (hinv : Inv s) (h : select s o = some s') : Inv s' := by
  obtain ⟨hne, hidx, hcor, hsel⟩ := hinv
  cases ha : s.hasAnswered with
  | true =>
    rw [select_eq_of_answered s o ha] at h
    injection h with h
    exact h ▸ ⟨hne, hidx, hcor, hsel⟩
  | false =>
    obtain ⟨c0, hc0⟩ := correctAnswer_isSome s hidx
    rw [select_eq_of_not_answered s o c0 ha hc0] at h
    injection h with h
    subst h
    obtain ⟨c, hc, hcm⟩ := hcor
    exact ⟨hne, hidx, ⟨c, hc, hcm⟩, fun _ => rfl⟩

/-- `next` preserves the session invariant. -/
lemma inv_next {s s' : QuizState} {k : QuestionType} {sp sf : List String → List String}
    {p1 p2 : Nat} (hsp : ∀ l, (sp l).Perm l) (hsf : ∀ l, (sf l).Perm l)
    (hinv : Inv s) (h : next s k sp sf p1 p2 = some s') : Inv s' := by
  obtain ⟨hne, hidx, hcor, hsel⟩ := hinv
  by_cases hlt : s.currentIndex < s.items.length - 1
  · rw [next_eq_advance s k sp sf p1 p2 hne hlt] at h
    injection h with h
    subst h
    have hidx2 : s.currentIndex + 1 < s.items.length := by omega
    refine ⟨hne, by simpa using hidx2, ⟨fieldValue k (s.items[s.currentIndex + 1]), ?_, ?_⟩,
      fun hcon => Bool.noConfusion hcon⟩
    · show (s.items[s.currentIndex + 1]?).map (fieldValue k) = _
      rw [List.getElem?_eq_getElem hidx2]
      rfl
    · exact (buildOptions_spec k (s.items[s.currentIndex + 1]) s.items sp sf p1 p2 hsp hsf).2.1
  · rw [next_eq_finish s k sp sf p1 p2 hne hlt] at h
    injection h with h
    subst h
    exact ⟨hne, hidx, hcor, hsel⟩

/-- `restart` preserves the session invariant. -/
lemma inv_restart {s s' : QuizState} {k : QuestionType} {sp sf : List String → List String}
    {p1 p2 : Nat} (hsp : ∀ l, (sp l).Perm l) (hsf : ∀ l, (sf l).Perm l)
    (hinv : Inv s) (h : restart s k sp sf p1 p2 = some s') : Inv s' := by
  obtain ⟨hne, _, _, _⟩ := hinv
  have hlen : 0 < s.items.length := List.length_pos.mpr hne
  rw [restart_eq s k sp sf p1 p2 hne] at h
  injection h with h
  subst h
  refine ⟨hne, by simpa using hlen, ⟨fieldValue k (s.items[0]), ?_, ?_⟩,
    fun hcon => Bool.noConfusion hcon⟩
  · show (s.items[0]?).map (fieldValue k) = _
    rw [List.getElem?_eq_getElem hlen]
    rfl
  · exact (buildOptions_spec k (s.items[0]) s.items sp sf p1 p2 hsp hsf).2.1

/-- Every step of the state machine preserves the session invariant. -/
lemma inv_step {s s' : QuizState} (hinv : Inv s) (h : Step s s') : Inv s' := by
  cases h with
  | select s o hs => exact inv_select hinv hs
  | next s k sp sf p1 p2 hsp hsf hs => exact inv_next hsp hsf hinv hs
  | restart s k sp sf p1 p2 hsp hsf hs => exact inv_restart hsp hsf hinv hs

/-- The invariant propagates along reachability. -/
lemma inv_reachable {s0 s : QuizState} (h0 : Inv s0) (h : ReachableFrom s0 s) : Inv s := by
  unfold ReachableFrom at h
  induction h with
  | refl => exact h0
  | tail _ hstep ih => exact inv_step ih hstep

/-- A successful load of the freshly constructed view model establishes the
session invariant. -/
lemma inv_of_load {photos : List MemoryPhoto} {sh : List MemoryItem → List MemoryItem}
    {k : QuestionType} {sp sf : List String → List String} {p1 p2 : Nat} {s0 : QuizState}
    (hsh : ∀ l, (sh l).Perm l) (hsp : ∀ l, (sp l).Perm l) (hsf : ∀ l, (sf l).Perm l)
    (hload : loadMemories initialState photos sh k sp sf p1 p2 = some s0)
    (hok : s0.items ≠ []) : Inv s0 := by
  by_cases h : photos.filterMap mapPhoto = []
  · unfold loadMemories at hload
    rw [if_pos (by simpa using h)] at hload
    injection hload with hload
    rw [← hload] at hok
    exact absurd rfl hok
  · have hlen : 0 < (photos.filterMap mapPhoto).length := List.length_pos.mpr h
    have hshlen : (sh (photos.filterMap mapPhoto)).length =
        (photos.filterMap mapPhoto).length := (hsh _).length_eq
    have hcpos : 0 < ((sh (photos.filterMap mapPhoto)).take 7).length := by
      rw [List.length_take, hshlen]
      omega
    have hcne : (sh (photos.filterMap mapPhoto)).take 7 ≠ [] := by
      intro hnil
      rw [hnil] at hcpos
      exact Nat.lt_irrefl 0 hcpos
    unfold loadMemories at hload
    rw [if_neg (by simpa using h)] at hload
    unfold regenerateQuestionAndOptions resetQuizState QuizState.currentItem? at hload
    simp only [isEmpty_false_of_ne_nil hcne, Bool.false_eq_true, if_false] at hload
    rw [List.getElem?_eq_getElem hcpos] at hload
    injection hload with hload
    subst hload
    refine ⟨hcne, by simpa using hcpos,
      ⟨fieldValue k (((sh (photos.filterMap mapPhoto)).take 7)[0]), ?_, ?_⟩,
      fun hcon => Bool.noConfusion hcon⟩
    · show ((((sh (photos.filterMap mapPhoto)).take 7))[0]?).map (fieldValue k) = _
      rw [List.getElem?_eq_getElem hcpos]
      rfl
    · exact (buildOptions_spec k _ _ sp sf p1 p2 hsp hsf).2.1

/-- C7: in every state reachable from a successful load of the freshly
constructed view model by any sequence of select/next/restart transitions,
while the session is not terminal, the current index is within the record list
(`0 ≤ currentIndex` holds trivially of the natural index), the displayed
option set contains the correct answer for the current record and question
kind, and an answered question has a recorded selection. -/
theorem reachable_invariant (photos : List MemoryPhoto)
    (sh : List MemoryItem → List MemoryItem) (k : QuestionType)
    (sp sf : List String → List String) (p1 p2 : Nat) (s0 s : QuizState)
    (hsh : ∀ l, (sh l).Perm l) (hsp : ∀ l, (sp l).Perm l) (hsf : ∀ l, (sf l).Perm l)
    (hload : loadMemories initialState photos sh k sp sf p1 p2 = some s0)
    (hok : s0.items ≠ [])
    (hreach : ReachableFrom s0 s)
    (_hterm : s.showResults = false) :
    s.currentIndex < s.items.length ∧
    (∃ c, s.correctAnswer? = some c ∧ c ∈ s.options) ∧
    (s.hasAnswered = true → s.selectedOption.isSome = true) := by
  have hinv := inv_reachable (inv_of_load hsh hsp hsf hload hok) hreach
  exact ⟨hinv.2.1, hinv.2.2.1, hinv.2.2.2⟩

/-- Witness for `reachable_invariant`: the state loaded from the single
eligible photo, reachable by the empty transition sequence, satisfies each
invariant clause. -/
theorem reachable_invariant_witness :
    loadMemories initialState [photoA] id QuestionType.person id id 0 1 = some sLoaded ∧
    (sLoaded.currentIndex < sLoaded.items.length ∧
      (∃ c, sLoaded.correctAnswer? = some c ∧ c ∈ sLoaded.options) ∧
      (sLoaded.hasAnswered = true → sLoaded.selectedOption.isSome = true)) :=
  ⟨by decide,
   reachable_invariant [photoA] id QuestionType.person id id 0 1 sLoaded sLoaded
     (fun l => List.Perm.refl l) (fun l => List.Perm.refl l) (fun l => List.Perm.refl l)
     (by decide) (by decide) Relation.ReflTransGen.refl rfl⟩

/-! Helper lemmas about the content cache. -/

/-- A successful `ensureDownloaded` resolves to the deterministically computed
destination and performs at most one fetch. -/
lemma ensureDownloaded_fetch_le {w : CacheWorld} {remote fresh : String}
    {dl : Option Nat} {u : String} {w2 : CacheWorld}
    (h : ensureDownloaded w remote fresh dl = some (u, w2)) :
    u = cachedFileName remote fresh ∧ w2.fetchCount ≤ w.fetchCount + 1 := by
  unfold ensureDownloaded at h
  by_cases hrem : remote.isEmpty
  · rw [if_pos hrem] at h
    exact Option.noConfusion h
  · rw [if_neg hrem] at h
    by_cases hex : fileExistsAndNonEmpty w (cachedFileName remote fresh) = true
    · rw [if_pos hex] at h
      injection h with h
      injection h with h1 h2
      subst h2
      exact ⟨h1.symm, Nat.le_succ _⟩
    · rw [if_neg hex] at h
      cases dl with
      | none => exact Option.noConfusion h
      | some sz =>
        injection h with h
        injection h with h1 h2
        subst h2
        exact ⟨h1.symm, Nat.le_refl _⟩

/-- C6: the content cache is idempotent with at most one fetch.  First clause:
when a file already exists at the locally computed path with non-zero size,
`ensureDownloaded` returns it at once with the world untouched — no network
round trip.  Second clause: after any successful first call of the view-model
cache for a remote identity, a second call with the same identity returns the
very same resolved handle, map and world — zero further fetches — and the pair
of calls has performed at most one fetch in total.  Third clause: a fresh
first call (identity not memoized, no usable file on disk) performs exactly
one fetch. -/
theorem cache_idempotent :
    (∀ (w : CacheWorld) (remote fresh : String) (dl : Option Nat),
      remote.isEmpty = false →
      fileExistsAndNonEmpty w (cachedFileName remote fresh) = true →
      ensureDownloaded w remote fresh dl = some (cachedFileName remote fresh, w)) ∧
    (∀ (cache : List (String × String)) (w : CacheWorld) (remote fresh fresh2 : String)
      (dl dl2 : Option Nat) (u : String) (cache2 : List (String × String)) (w2 : CacheWorld),
      localFileURLFor cache w remote fresh dl = (some u, cache2, w2) →
      localFileURLFor cache2 w2 remote fresh2 dl2 = (some u, cache2, w2) ∧
      w2.fetchCount ≤ w.fetchCount + 1) ∧
    (∀ (cache : List (String × String)) (w : CacheWorld) (remote fresh : String) (sz : Nat),
      cache.find? (fun e => e.1 == remote) = none →
      remote.isEmpty = false →
      fileExistsAndNonEmpty w (cachedFileName remote fresh) = false →
      ∃ w2, localFileURLFor cache w remote fresh (some sz) =
        (some (cachedFileName remote fresh),
         (remote, cachedFileName remote fresh) :: cache, w2) ∧
        w2.fetchCount = w.fetchCount + 1) := by
  refine ⟨?_, ?_, ?_⟩
  · intro w remote fresh dl hne hex
    unfold ensureDownloaded
    rw [hne]
    simp only [Bool.false_eq_true, if_false, hex, if_pos]
  · intro cache w remote fresh fresh2 dl dl2 u cache2 w2 h
    unfold localFileURLFor at h
    cases hf : (cache.find? (fun e => e.1 == remote)).map (fun e => e.2) with
    | some u0 =>
      rw [hf] at h
      injection h with h1 h
      injection h with h2 h3
      injection h1 with h1
      subst h1
      subst h2
      subst h3
      constructor
      · unfold localFileURLFor
        rw [hf]
      · exact Nat.le_succ _
    | none =>
      rw [hf] at h
      cases he : ensureDownloaded w remote fresh dl with
      | none =>
        rw [he] at h
        injection h with h1 h
        exact Option.noConfusion h1
      | some uw =>
        obtain ⟨u0, w0⟩ := uw
        rw [he] at h
        injection h with h1 h
        injection h with h2 h3
        injection h1 with h1
        subst h1
        subst h2
        subst h3
        refine ⟨?_, (ensureDownloaded_fetch_le he).2⟩
        unfold localFileURLFor
        simp [List.find?]
  · intro cache w remote fresh sz hfind hne hnex
    refine ⟨⟨setFS w.fsSize (cachedFileName remote fresh) sz, w.fetchCount + 1⟩, ?_, rfl⟩
    unfold localFileURLFor ensureDownloaded
    rw [hfind, hne]
    simp only [Option.map_none, Bool.false_eq_true, if_false, hnex]
    rfl

/-- Witness for `cache_idempotent`: a concrete remote URL against an empty
cache and an empty disk; the first call fetches once, the second call returns
the same handle with no further fetch, and a pre-populated disk file is
returned without touching the world. -/
theorem cache_idempotent_witness :
    (ensureDownloaded ⟨[("a.heic", 5)], 3⟩ "https://ex/a.heic" "f" none =
      some (cachedFileName "https://ex/a.heic" "f", ⟨[("a.heic", 5)], 3⟩)) ∧
    (localFileURLFor [("https://ex/a.heic", "a.heic")] ⟨[("a.heic", 5)], 1⟩
        "https://ex/a.heic" "f" none =
      (some "a.heic", [("https://ex/a.heic", "a.heic")], ⟨[("a.heic", 5)], 1⟩) ∧
      (⟨[("a.heic", 5)], 1⟩ : CacheWorld).fetchCount ≤
        (⟨[("a.heic", 5)], 0⟩ : CacheWorld).fetchCount + 1) ∧
    (∃ w2, localFileURLFor [] ⟨[], 0⟩ "https://ex/a.heic" "f" (some 5) =
      (some (cachedFileName "https://ex/a.heic" "f"),
       [("https://ex/a.heic", cachedFileName "https://ex/a.heic" "f")], w2) ∧
      w2.fetchCount = (⟨[], 0⟩ : CacheWorld).fetchCount + 1) :=
  ⟨cache_idempotent.1 ⟨[("a.heic", 5)], 3⟩ "https://ex/a.heic" "f" none (by decide) (by decide),
   cache_idempotent.2.1 [] ⟨[], 0⟩ "https://ex/a.heic" "f" "f" (some 5) none "a.heic"
     [("https://ex/a.heic", "a.heic")] ⟨[("a.heic", 5)], 1⟩ (by decide),
   cache_idempotent.2.2 [] ⟨[], 0⟩ "https://ex/a.heic" "f" 5 (by decide) (by decide) (by decide)⟩

/-- C8: in every success trace of the per-question orchestration — the asset
fetch succeeded and the countdown was not cancelled — some countdown-elapsed
event strictly precedes the first (and only) reveal, for every possible
position of the speech-completion event, including positions before the
countdown elapses; and the asset-fetch-failure trace reveals the quiz with no
preview and no countdown at all, the exemption the claim names. -/
theorem revealed_after_countdown :
    (∀ slot : Nat,
      OrchEvent.countdownElapsed ∈
        (orchestrate true false slot).takeWhile (fun e => e != OrchEvent.revealed) ∧
      (orchestrate true false slot).count OrchEvent.revealed = 1) ∧
    (∀ (cancelled : Bool) (slot : Nat),
      orchestrate false cancelled slot = [OrchEvent.fetchFailed, OrchEvent.revealed]) := by
  constructor
  · intro slot
    match slot with
    | 0 => decide
    | 1 => decide
    | n + 2 =>
      have heq : orchestrate true false (n + 2) =
          [OrchEvent.previewShown, OrchEvent.speechStarted, OrchEvent.countdownElapsed,
           OrchEvent.revealed, OrchEvent.speechFinished] := by
        simp [orchestrate, insertAt]
      rw [heq]
      decide
  · intro cancelled slot
    rfl

end Quiz
